import Mathlib

/-!
Verification of the repository-state synchronization core of the `textual-demo`
git TUI (`git_tui.py`).  Python strings are modelled as `List Char`; the
subprocess boundary (`run_git_command`) is modelled by a `RunResult` record
carrying the success flag and the (already stripped) captured text, exactly the
pair the Python helper returns.  Each widget method that the claims mention is
embedded as a pure state-transition function over an explicit state record; the
framework-managed tables become lists of row tuples, `add_row` becomes appending
to those lists, and `table.clear()` becomes replacing them with `[]`.
-/

/-- Python strings, modelled as lists of characters. -/
abbrev Str := List Char

/-- The whitespace characters recognised by Python's `str.strip()` /
`str.split(None)` for the ASCII range: space, tab, newline, carriage return,
vertical tab and form feed. -/
def pySpace (c : Char) : Bool :=
  c = ' ' ∨ c = '\t' ∨ c = '\n' ∨ c = '\r' ∨ c = Char.ofNat 11 ∨ c = Char.ofNat 12

/-- Python `s.split(sep)` for a single-character separator: split at every
occurrence, keeping empty chunks; the empty string yields `[""]`. -/
def splitChar (sep : Char) : Str → List Str
  | [] => [[]]
  | c :: cs =>
    if c = sep then [] :: splitChar sep cs
    else
      match splitChar sep cs with
      | [] => [[c]]
      | h :: t => (c :: h) :: t

/-- Python `s.split(sep, maxsplit)` for a single-character separator: split at
the first `maxsplit` occurrences only, the remainder is kept verbatim as the
last chunk. -/
def splitMax (sep : Char) : Str → Nat → List Str
  | [], _ => [[]]
  | c :: cs, 0 => [c :: cs]
  | c :: cs, Nat.succ m =>
    if c = sep then [] :: splitMax sep cs m
    else
      match splitMax sep cs (Nat.succ m) with
      | [] => [[c]]
      | h :: t => (c :: h) :: t

/-- Negation of `pySpace`, used for extracting whitespace-delimited words. -/
def notWs (c : Char) : Bool := ¬ pySpace c

/-- Python `s.split(None, 2)` (the only whitespace `maxsplit` the source uses):
skip leading whitespace, take up to two whitespace-delimited words, and keep
the remainder (left-stripped, trailing whitespace preserved) as the third
chunk when it is nonempty. -/
def splitWsTwo (cs : Str) : List Str :=
  let s0 := cs.dropWhile pySpace
  if s0 = [] then []
  else
    let w1 := s0.takeWhile notWs
    let r1 := (s0.dropWhile notWs).dropWhile pySpace
    if r1 = [] then [w1]
    else
      let w2 := r1.takeWhile notWs
      let r2 := (r1.dropWhile notWs).dropWhile pySpace
      if r2 = [] then [w1, w2] else [w1, w2, r2]

/-- Python `s.strip()`: remove leading and trailing whitespace. -/
def pyStrip (cs : Str) : Str :=
  ((cs.dropWhile pySpace).reverse.dropWhile pySpace).reverse

/-- Python `needle in hay` (substring containment). -/
def pyContains (needle : Str) : Str → Bool
  | [] => needle.isPrefixOf []
  | c :: cs => needle.isPrefixOf (c :: cs) || pyContains needle cs

/-- The `(success, text)` pair returned by `run_git_command`: `(True, stdout
stripped)` on exit code 0, `(False, stderr stripped)` on a nonzero exit, and
`(False, exception text)` when the process cannot be launched.  The subprocess
itself is outside the model, so every embedded operation takes the pair as an
input. -/
structure RunResult where
  success : Bool
  output : Str
deriving DecidableEq

/-- Rich markup wrapper `[green]...[/green]` used by the status table cells. -/
def greenWrap (s : Str) : Str := "[green]".toList ++ s ++ "[/green]".toList

/-- Rich markup wrapper `[yellow]...[/yellow]`. -/
def yellowWrap (s : Str) : Str := "[yellow]".toList ++ s ++ "[/yellow]".toList

/-- Rich markup wrapper `[red]...[/red]`. -/
def redWrap (s : Str) : Str := "[red]".toList ++ s ++ "[/red]".toList

/-- Rich markup wrapper `[cyan]...[/cyan]` used for commit hashes. -/
def cyanWrap (s : Str) : Str := "[cyan]".toList ++ s ++ "[/cyan]".toList

/-- Rich markup wrapper `[dim]...[/dim]` used for commit dates. -/
def dimWrap (s : Str) : Str := "[dim]".toList ++ s ++ "[/dim]".toList

/-- In `GitStatus.refresh_status`: the staged label map
`{"M": "修改", "A": "新增", "D": "删除", "R": "重命名", "C": "复制"}` with
`.get(index_status, index_status)` defaulting. -/
def stagedStatusLabel (c : Char) : Str :=
  if c = 'M' then "修改".toList
  else if c = 'A' then "新增".toList
  else if c = 'D' then "删除".toList
  else if c = 'R' then "重命名".toList
  else if c = 'C' then "复制".toList
  else [c]

/-- In `GitStatus.refresh_status`: the unstaged label map
`{"M": "修改", "D": "删除"}` with `.get(worktree_status, worktree_status)`
defaulting. -/
def unstagedStatusLabel (c : Char) : Str :=
  if c = 'M' then "修改".toList
  else if c = 'D' then "删除".toList
  else [c]

/-- The three `DataTable`s of the `GitStatus` panel; each row is the pair of
cell texts passed to `add_row`. -/
structure StatusTables where
  staged : List (Str × Str)
  unstaged : List (Str × Str)
  untracked : List (Str × Str)
deriving DecidableEq

/-- One iteration of the `for line in status.split("\n")` loop of
`GitStatus.refresh_status`: a line shorter than 3 characters is skipped;
otherwise `line[0]` in `"MADRC"` appends a staged row, `line[1]` in `"MD"`
appends an unstaged row, and `line[0] == line[1] == '?'` appends an untracked
row, each with `filename = line[3:]`. -/
def statusLineStep (t : StatusTables) (line : Str) : StatusTables :=
  match line with
  | c0 :: c1 :: _ :: rest =>
    let t1 := if "MADRC".toList.contains c0 then
        { t with staged := t.staged ++ [(greenWrap (stagedStatusLabel c0), rest)] } else t
    let t2 := if "MD".toList.contains c1 then
        { t1 with unstaged := t1.unstaged ++ [(yellowWrap (unstagedStatusLabel c1), rest)] } else t1
    if c0 = '?' ∧ c1 = '?' then
      { t2 with untracked := t2.untracked ++ [(redWrap "新文件".toList, rest)] } else t2
  | _ => t

/-- The status tables produced from one `status --porcelain` text: the tables
are cleared and, unless the text is empty (`if not status: return`), refilled
by the line loop of `GitStatus.refresh_status`. -/
def statusTablesOfText (status : Str) : StatusTables :=
  if status = [] then ⟨[], [], []⟩
  else (splitChar '\n' status).foldl statusLineStep ⟨[], [], []⟩

/-- The state of the `GitStatus` panel: the `#repo-info` banner text and the
three file tables. -/
structure GitStatusState where
  repoInfo : Str
  tables : StatusTables
deriving DecidableEq

/-- The banner shown when `get_repo_root` fails. -/
def notRepoBanner : Str := "[red]⚠️ 当前目录不是 Git 仓库[/red]".toList

/-- The banner `f"[green]📂 {repo_root}[/green]\n[cyan]🌿 分支: {branch}[/cyan]"`. -/
def repoBanner (root branch : Str) : Str :=
  "[green]📂 ".toList ++ root ++ "[/green]\n[cyan]🌿 分支: ".toList ++ branch
    ++ "[/cyan]".toList

/-- The results of the tool invocations issued inside one
`GitStatus.refresh_status` call: `get_repo_root()` (`None` on failure),
`branch --show-current` and `status --porcelain`. -/
structure StatusRefreshInputs where
  repoRoot : Option Str
  branchResult : RunResult
  statusResult : RunResult
deriving DecidableEq

/-- Embedding of `GitStatus.refresh_status`.  When the repo root is missing the method
updates the banner and returns early, leaving the tables untouched.  Otherwise
the banner is rebuilt when `branch --show-current` succeeded, and the three
tables are cleared and refilled from the `status --porcelain` text.  Note the
source discards the success flag of the status invocation: on a nonzero exit
the (stderr) text is parsed exactly like stdout. -/
def refresh_status (inp : StatusRefreshInputs) (s : GitStatusState) : GitStatusState :=
  match inp.repoRoot with
  | none => { s with repoInfo := notRepoBanner }
  | some root =>
    let s1 := if inp.branchResult.success then
        { s with repoInfo := repoBanner root inp.branchResult.output } else s
    { s1 with tables := statusTablesOfText inp.statusResult.output }

/-- One row of the `#log-table` of the `GitLog` panel: the four cell texts
passed to `add_row`. -/
structure LogRow where
  hash : Str
  author : Str
  date : Str
  message : Str
deriving DecidableEq

/-- In `GitLog.load_commits`: `message[:50] + "..." if len(message) > 50 else
message`. -/
def truncateMessage (m : Str) : Str :=
  if 50 < m.length then m.take 50 ++ "...".toList else m

/-- One iteration of the `for line in output.split("\n")` loop of
`GitLog.load_commits`: the line is split as `line.split("|", 3)` and a row is
added exactly when that yields 4 parts. -/
def logLineRow (line : Str) : Option LogRow :=
  match splitMax '|' line 3 with
  | [h, a, d, m] => some ⟨cyanWrap h, a, dimWrap d, truncateMessage m⟩
  | _ => none

/-- The rows built from one `log --pretty=format:%h|%an|%ar|%s` text. -/
def logRowsOfText (output : Str) : List LogRow :=
  (splitChar '\n' output).filterMap logLineRow

/-- The state of the `GitLog` panel: the rows of `#log-table`. -/
structure GitLogState where
  rows : List LogRow
deriving DecidableEq

/-- Embedding of `GitLog.load_commits` (the requested count only changes the external `log
-N` invocation, whose result is the `RunResult` input).  The table is cleared
unconditionally, then refilled only when the invocation succeeded with
nonempty output. -/
def load_commits (res : RunResult) (_s : GitLogState) : GitLogState :=
  if res.success = false ∨ res.output = [] then ⟨[]⟩
  else ⟨logRowsOfText res.output⟩

/-- One row of a branch `DataTable`: the three cell texts passed to
`add_row`. -/
structure BranchRow where
  statusCell : Str
  name : Str
  lastCommit : Str
deriving DecidableEq

/-- One iteration of the local-branch loop of `GitBranches.refresh_branches`:
the line is stripped, blank lines are skipped, `is_current =
line.startswith("*")`, the line is reduced by `lstrip("* ")` and split with
`split(None, 2)`; rows are added only when at least 2 parts result, the third
cell being `f"{commit_info} {message}"[:40]`. -/
def localBranchRow (rawLine : Str) : Option BranchRow :=
  let line := pyStrip rawLine
  if line = [] then none
  else
    let is_current := ['*'].isPrefixOf line
    match splitWsTwo (line.dropWhile (fun c => c = '*' ∨ c = ' ')) with
    | p0 :: p1 :: rest =>
      let message := match rest with | [] => ([] : Str) | m :: _ => m
      some ⟨(if is_current then "[green]●[/green]".toList else "[dim]○[/dim]".toList),
            p0, (p1 ++ ' ' :: message).take 40⟩
    | _ => none

/-- One iteration of the remote-branch loop of `GitBranches.refresh_branches`:
the line is stripped and a row is added exactly when the result is nonempty
and does not contain `"->"`. -/
def remoteBranchRow (rawLine : Str) : Option BranchRow :=
  let branch := pyStrip rawLine
  if branch ≠ [] ∧ pyContains "->".toList branch = false then
    some ⟨"[cyan]→[/cyan]".toList, branch, []⟩
  else none

/-- The local-branch rows built from one `branch -v` text. -/
def localRowsOfText (output : Str) : List BranchRow :=
  (splitChar '\n' output).filterMap localBranchRow

/-- The remote-branch rows built from one `branch -r` text. -/
def remoteRowsOfText (output : Str) : List BranchRow :=
  (splitChar '\n' output).filterMap remoteBranchRow

/-- The state of the `GitBranches` panel: the rows of the two branch tables. -/
structure GitBranchesState where
  localRows : List BranchRow
  remoteRows : List BranchRow
deriving DecidableEq

/-- Embedding of `GitBranches.refresh_branches`: each table is cleared unconditionally and
refilled only when its invocation (`branch -v`, `branch -r`) succeeded with
nonempty output. -/
def refresh_branches (localRes remoteRes : RunResult) (_s : GitBranchesState) :
    GitBranchesState :=
  ⟨if localRes.success = true ∧ localRes.output ≠ [] then localRowsOfText localRes.output
    else [],
   if remoteRes.success = true ∧ remoteRes.output ≠ [] then remoteRowsOfText remoteRes.output
    else []⟩

/-- Notification severities used by the `GitCommit` panel (`notify` defaults
to information severity). -/
inductive Severity
  | info
  | warning
  | error
deriving DecidableEq

/-- One `self.app.notify(...)` call: its text and severity. -/
structure Notification where
  text : Str
  severity : Severity
deriving DecidableEq

/-- In `GitCommit.update_summary`: `sum(1 for l in lines if l and l[0] in
"MADRC")`. -/
def summaryStagedPred (l : Str) : Bool :=
  match l with
  | c :: _ => "MADRC".toList.contains c
  | [] => false

/-- In `GitCommit.update_summary`: `sum(1 for l in lines if l and len(l) > 1 and
l[1] in "MD")`. -/
def summaryUnstagedPred (l : Str) : Bool :=
  match l with
  | _ :: c :: _ => "MD".toList.contains c
  | _ => false

/-- In `GitCommit.update_summary`: `sum(1 for l in lines if l.startswith("??"))`. -/
def summaryUntrackedPred (l : Str) : Bool := ['?', '?'].isPrefixOf l

/-- The rendered `#changes-summary` text
`f"[green]已暂存: {staged}[/green] | [yellow]未暂存: {unstaged}[/yellow] | [red]未跟踪: {untracked}[/red]"`. -/
def summaryText (staged unstaged untracked : Nat) : Str :=
  "[green]已暂存: ".toList ++ (Nat.repr staged).toList
    ++ "[/green] | [yellow]未暂存: ".toList ++ (Nat.repr unstaged).toList
    ++ "[/yellow] | [red]未跟踪: ".toList ++ (Nat.repr untracked).toList
    ++ "[/red]".toList

/-- The state of the `GitCommit` panel: the `#commit-message` input value, the
`#changes-summary` text, the `#commit-log` entries (modelled without the
wall-clock timestamp the source prepends, which is outside the model) and the
notifications emitted so far. -/
structure GitCommitState where
  inputValue : Str
  summary : Str
  logLines : List Str
  notifications : List Notification
deriving DecidableEq

/-- Embedding of `GitCommit.update_summary`: on success the summary is rebuilt from the
`status --short` text (`lines = status.split("\n") if status else []`); on
failure it shows the error banner. -/
def update_summary (statusRes : RunResult) (s : GitCommitState) : GitCommitState :=
  if statusRes.success then
    let lines := if statusRes.output = [] then [] else splitChar '\n' statusRes.output
    let staged := (lines.filter summaryStagedPred).length
    let unstaged := (lines.filter summaryUnstagedPred).length
    let untracked := (lines.filter summaryUntrackedPred).length
    { s with summary := summaryText staged unstaged untracked }
  else { s with summary := "[red]无法获取状态[/red]".toList }

/-- The `#commit-log` entry `f"[red]❌ 提交失败[/red]: {output}"`. -/
def commitFailLine (output : Str) : Str := "[red]❌ 提交失败[/red]: ".toList ++ output

/-- The `#commit-log` entry `f"[green]✅ 提交成功[/green]: {message}"`. -/
def commitOkLine (message : Str) : Str := "[green]✅ 提交成功[/green]: ".toList ++ message

/-- The `#commit-log` entry `f"[yellow]⚠️ 推送失败[/yellow]: {output}"`. -/
def pushFailLine (output : Str) : Str := "[yellow]⚠️ 推送失败[/yellow]: ".toList ++ output

/-- Embedding of `GitCommit.on_commit_push`.  Inputs are the results of the `commit -m`
invocation, of the `push` invocation, and of the `status --short` invocation
that `update_summary` would issue; the source consults them in exactly this
order, so a later result is read only on the paths that reach it.  An empty
stripped message only warns; a failed commit only logs the commit failure; a
successful commit followed by a successful push clears the input, rebuilds the
summary and notifies success; a successful commit followed by a failed push
logs the push failure and notifies the partial-success warning. -/
def on_commit_push (commitRes pushRes statusRes : RunResult) (s : GitCommitState) :
    GitCommitState :=
  let message := pyStrip s.inputValue
  if message = [] then
    { s with notifications := s.notifications ++ [⟨"请输入提交信息".toList, Severity.warning⟩] }
  else if commitRes.success = false then
    { s with logLines := s.logLines ++ [commitFailLine commitRes.output] }
  else
    let s1 := { s with logLines := s.logLines ++ [commitOkLine message] }
    if pushRes.success then
      let s2 := update_summary statusRes { s1 with inputValue := [] }
      { s2 with logLines := s2.logLines ++ ["[green]✅ 推送成功[/green]".toList],
                notifications := s2.notifications ++ [⟨"✅ 提交并推送成功".toList, Severity.info⟩] }
    else
      { s1 with logLines := s1.logLines ++ [pushFailLine pushRes.output],
                notifications := s1.notifications
                  ++ [⟨"提交成功，但推送失败".toList, Severity.warning⟩] }

/-! ### Helper lemmas shared between the claims -/

/-- A status line of at least 3 characters updates each of the three tables
independently, appending exactly one row with the path `line[3:]` when the
line's condition for that table holds. -/
theorem statusLineStep_cons (t : StatusTables) (c0 c1 c2 : Char) (rest : Str) :
    statusLineStep t (c0 :: c1 :: c2 :: rest) =
      ⟨(if "MADRC".toList.contains c0 then
          t.staged ++ [(greenWrap (stagedStatusLabel c0), rest)] else t.staged),
       (if "MD".toList.contains c1 then
          t.unstaged ++ [(yellowWrap (unstagedStatusLabel c1), rest)] else t.unstaged),
       (if c0 = '?' ∧ c1 = '?' then
          t.untracked ++ [(redWrap "新文件".toList, rest)] else t.untracked)⟩ := by
  simp only [statusLineStep]
  split_ifs <;> rfl

/-- A status line shorter than 3 characters is skipped. -/
theorem statusLineStep_short (t : StatusTables) (line : Str) (h : line.length < 3) :
    statusLineStep t line = t := by
  rcases line with _ | ⟨a, _ | ⟨b, _ | ⟨c, rest⟩⟩⟩
  · rfl
  · rfl
  · rfl
  · simp at h
    omega

/-- Membership in the `"MADRC"` index-status set, spelled out. -/
theorem contains_MADRC_iff (c : Char) :
    "MADRC".toList.contains c = true ↔ (c = 'M' ∨ c = 'A' ∨ c = 'D' ∨ c = 'R' ∨ c = 'C') := by
  simp only [List.contains_eq_any_beq, show "MADRC".toList = ['M', 'A', 'D', 'R', 'C'] from rfl,
    List.any_cons, List.any_nil, Bool.or_eq_true, beq_iff_eq]
  tauto

/-- Membership in the `"MD"` worktree-status set, spelled out. -/
theorem contains_MD_iff (c : Char) :
    "MD".toList.contains c = true ↔ (c = 'M' ∨ c = 'D') := by
  simp only [List.contains_eq_any_beq, show "MD".toList = ['M', 'D'] from rfl,
    List.any_cons, List.any_nil, Bool.or_eq_true, beq_iff_eq]
  tauto

/-! ### C4 — StatusParser line classification -/

/-- C4: for every status line of at least 3 characters, `refresh_status` emits
a staged entry if and only if the character at index 0 is in `{M,A,D,R,C}`, an
unstaged entry if and only if the character at index 1 is in `{M,D}`, and an
untracked entry if and only if both characters are `?`, every emitted entry's
path being the line's text from index 3 to the end; lines shorter than 3
characters emit nothing; `MM src/a.py` yields one staged and one unstaged
entry with path `src/a.py`, and `?? newfile.txt` yields exactly one untracked
entry and no staged or unstaged entry. -/
theorem statusParser_classifies_lines :
    (∀ c : Char,
      ("MADRC".toList.contains c = true ↔ (c = 'M' ∨ c = 'A' ∨ c = 'D' ∨ c = 'R' ∨ c = 'C'))
      ∧ ("MD".toList.contains c = true ↔ (c = 'M' ∨ c = 'D')))
    ∧ (∀ (t : StatusTables) (c0 c1 c2 : Char) (rest : Str),
        statusLineStep t (c0 :: c1 :: c2 :: rest) =
          ⟨(if "MADRC".toList.contains c0 then
              t.staged ++ [(greenWrap (stagedStatusLabel c0), rest)] else t.staged),
           (if "MD".toList.contains c1 then
              t.unstaged ++ [(yellowWrap (unstagedStatusLabel c1), rest)] else t.unstaged),
           (if c0 = '?' ∧ c1 = '?' then
              t.untracked ++ [(redWrap "新文件".toList, rest)] else t.untracked)⟩)
    ∧ (∀ (t : StatusTables) (line : Str), line.length < 3 → statusLineStep t line = t)
    ∧ statusTablesOfText ("MM src/a.py".toList) =
        ⟨[(greenWrap ("修改".toList), "src/a.py".toList)],
         [(yellowWrap ("修改".toList), "src/a.py".toList)], []⟩
    ∧ statusTablesOfText ("?? newfile.txt".toList) =
        ⟨[], [], [(redWrap ("新文件".toList), "newfile.txt".toList)]⟩ :=
  ⟨fun c => ⟨contains_MADRC_iff c, contains_MD_iff c⟩,
   statusLineStep_cons, statusLineStep_short, by decide, by decide⟩

/-- C4 witness: the classification theorem applied at concrete inputs (the
`MM src/a.py` line and a 2-character line). -/
theorem statusParser_classifies_lines_w :
    statusLineStep ⟨[], [], []⟩ ("MM src/a.py".toList) =
      ⟨[(greenWrap (stagedStatusLabel 'M'), "src/a.py".toList)],
       [(yellowWrap (unstagedStatusLabel 'M'), "src/a.py".toList)], []⟩
    ∧ statusLineStep ⟨[], [], []⟩ ['?', '?'] = ⟨[], [], []⟩ := by
  constructor
  · have h := statusParser_classifies_lines.2.1 ⟨[], [], []⟩ 'M' 'M' ' ' ("src/a.py".toList)
    simpa using h
  · exact statusParser_classifies_lines.2.2.1 ⟨[], [], []⟩ ['?', '?'] (by decide)

/-! ### C5 — HistoryParser split behaviour -/

/-- Splitting with `split(sep, 0)` keeps the whole string as one chunk. -/
theorem splitMax_zero (sep : Char) (cs : Str) : splitMax sep cs 0 = [cs] := by
  cases cs <;> rfl

/-- Splitting with `split(sep, maxsplit)` always yields at least one chunk. -/
theorem splitMax_ne_nil (sep : Char) (cs : Str) (n : Nat) : splitMax sep cs n ≠ [] := by
  induction cs generalizing n with
  | nil => simp [splitMax]
  | cons c cs ih =>
    cases n with
    | zero => simp [splitMax]
    | succ m =>
      simp only [splitMax]
      split_ifs
      · simp
      · cases h : splitMax sep cs (Nat.succ m) with
        | nil => simp [h]
        | cons hd tl => simp [h]

/-- Splitting with `split(sep, maxsplit)` yields at most `maxsplit + 1` chunks. -/
theorem splitMax_length_le (sep : Char) (cs : Str) (n : Nat) :
    (splitMax sep cs n).length ≤ n + 1 := by
  induction cs generalizing n with
  | nil => simp [splitMax]
  | cons c cs ih =>
    cases n with
    | zero => simp [splitMax]
    | succ m =>
      simp only [splitMax]
      split_ifs
      · simpa using Nat.succ_le_succ (ih m)
      · cases h : splitMax sep cs (Nat.succ m) with
        | nil => simp [h]
        | cons hd tl =>
          have h2 := ih (Nat.succ m)
          rw [h] at h2
          simp only [h, List.length_cons] at h2 ⊢
          omega

/-- Splitting consumes a separator-free chunk before the first separator and
recurses on the remainder with one split budget less. -/
theorem splitMax_append_sep (sep : Char) (a rest : Str) (n : Nat) (ha : sep ∉ a) :
    splitMax sep (a ++ sep :: rest) (n + 1) = a :: splitMax sep rest n := by
  induction a with
  | nil => simp [splitMax]
  | cons x a ih =>
    have hx : ¬ x = sep := fun hxe => ha (hxe ▸ List.mem_cons_self x a)
    have ha2 : sep ∉ a := fun hm => ha (List.mem_cons_of_mem _ hm)
    simp only [List.cons_append, splitMax, if_neg hx]
    rw [show a.append (sep :: rest) = a ++ sep :: rest from rfl,
      show Nat.succ n = n + 1 from rfl, ih ha2]

/-- C5: `load_commits` splits each history line at the first 3 `|` characters
only, into at most 4 parts, so later `|` characters stay verbatim inside the
4th (subject) field, and a line is discarded (yields no commit row) exactly
when the split does not yield 4 parts; the line
`abc123|Jane|2 days ago|Fix bug: a | b` yields the subject `Fix bug: a | b`
unmodified. -/
theorem historyParser_split :
    (∀ line : Str, (splitMax '|' line 3).length ≤ 4)
    ∧ (∀ a b c d : Str, '|' ∉ a → '|' ∉ b → '|' ∉ c →
        splitMax '|' (a ++ '|' :: (b ++ '|' :: (c ++ '|' :: d))) 3 = [a, b, c, d])
    ∧ (∀ line : Str, logLineRow line = none ↔ (splitMax '|' line 3).length ≠ 4)
    ∧ (logLineRow ("abc123|Jane|2 days ago|Fix bug: a | b".toList)).map LogRow.message
        = some ("Fix bug: a | b".toList) := by
  refine ⟨fun line => splitMax_length_le '|' line 3, ?_, ?_, by decide⟩
  · intro a b c d ha hb hc
    rw [show (3 : Nat) = 2 + 1 from rfl, splitMax_append_sep '|' a _ 2 ha,
      splitMax_append_sep '|' b _ 1 hb, splitMax_append_sep '|' c _ 0 hc, splitMax_zero]
  · intro line
    rcases h : splitMax '|' line 3 with _ | ⟨x1, _ | ⟨x2, _ | ⟨x3, _ | ⟨x4, _ | ⟨x5, t⟩⟩⟩⟩⟩ <;>
      simp [logLineRow, h]

/-- C5 witness: the split theorem applied to the concrete line
`a|b|c|d|e`, whose 4th part keeps the embedded delimiter. -/
theorem historyParser_split_w :
    splitMax '|' (['a'] ++ '|' :: (['b'] ++ '|' :: (['c'] ++ '|' :: ['d', '|', 'e']))) 3
      = [['a'], ['b'], ['c'], ['d', '|', 'e']] :=
  historyParser_split.2.1 ['a'] ['b'] ['c'] ['d', '|', 'e'] (by decide) (by decide) (by decide)

/-! ### C6 — subject truncation -/

/-- C6: a subject longer than 50 characters is emitted as exactly its first 50
characters followed by the 3-character ellipsis `...` (53 characters in
total), a subject of at most 50 characters is emitted unchanged, and every
commit row built from a 4-part line carries exactly this truncation of the 4th
part. -/
theorem subject_truncation :
    (∀ m : Str, 50 < m.length →
        truncateMessage m = m.take 50 ++ "...".toList ∧ (truncateMessage m).length = 53)
    ∧ (∀ m : Str, m.length ≤ 50 → truncateMessage m = m)
    ∧ (∀ (line h a d m : Str), splitMax '|' line 3 = [h, a, d, m] →
        logLineRow line = some ⟨cyanWrap h, a, dimWrap d, truncateMessage m⟩) := by
  refine ⟨fun m hm => ⟨if_pos hm, ?_⟩, fun m hm => if_neg (Nat.not_lt.mpr hm), ?_⟩
  · simp only [truncateMessage]
    rw [if_pos hm, List.length_append, List.length_take,
      Nat.min_eq_left (Nat.le_of_lt hm), show ("...".toList).length = 3 from rfl]
  · intro line h a d m heq
    simp [logLineRow, heq]

/-- C6 witness: the truncation theorem applied to a 60-character subject and a
50-character subject. -/
theorem subject_truncation_w :
    truncateMessage (List.replicate 60 'x') = (List.replicate 60 'x').take 50 ++ "...".toList
    ∧ (truncateMessage (List.replicate 60 'x')).length = 53
    ∧ truncateMessage (List.replicate 50 'x') = List.replicate 50 'x' := by
  have h1 := subject_truncation.1 (List.replicate 60 'x') (by decide)
  exact ⟨h1.1, h1.2, subject_truncation.2.1 (List.replicate 50 'x') (by decide)⟩

/-! ### C7 — BranchParser local lines -/

/-- Splitting with `split(None, 2)` yields at most 3 fields. -/
theorem splitWsTwo_length_le (cs : Str) : (splitWsTwo cs).length ≤ 3 := by
  simp only [splitWsTwo]
  split_ifs <;> simp

/-- C7: a local-branch line is marked current exactly when the stripped line
starts with `*` (the two marker cells being distinct), the remainder after
stripping the marker characters is split into at most 3 whitespace-delimited
fields, a line yielding fewer than 2 fields is skipped, and the two example
lines parse as the specification states. -/
theorem branchParser_local_lines :
    (∀ rawLine : Str,
        (splitWsTwo ((pyStrip rawLine).dropWhile (fun c => c = '*' ∨ c = ' '))).length ≤ 3)
    ∧ (∀ (rawLine : Str) (row : BranchRow), localBranchRow rawLine = some row →
        row.statusCell = (if ['*'].isPrefixOf (pyStrip rawLine) then
          "[green]●[/green]".toList else "[dim]○[/dim]".toList))
    ∧ ("[green]●[/green]".toList ≠ ("[dim]○[/dim]".toList : Str))
    ∧ (∀ rawLine : Str,
        (splitWsTwo ((pyStrip rawLine).dropWhile (fun c => c = '*' ∨ c = ' '))).length < 2 →
        localBranchRow rawLine = none)
    ∧ localBranchRow ("* main abc1234 Initial commit".toList)
        = some ⟨"[green]●[/green]".toList, "main".toList, "abc1234 Initial commit".toList⟩
    ∧ localBranchRow ("  feature/x def5678 WIP".toList)
        = some ⟨"[dim]○[/dim]".toList, "feature/x".toList, "def5678 WIP".toList⟩ := by
  refine ⟨fun rawLine => splitWsTwo_length_le _, ?_, by decide, ?_, by decide, by decide⟩
  · intro rawLine row h
    simp only [localBranchRow] at h
    by_cases h0 : pyStrip rawLine = []
    · rw [if_pos h0] at h
      exact Option.noConfusion h
    · rw [if_neg h0] at h
      rcases hs : splitWsTwo ((pyStrip rawLine).dropWhile (fun c => c = '*' ∨ c = ' ')) with
        _ | ⟨p0, _ | ⟨p1, rest⟩⟩
      · rw [hs] at h
        exact Option.noConfusion h
      · rw [hs] at h
        exact Option.noConfusion h
      · rw [hs] at h
        injection h with h2
        rw [← h2]
  · intro rawLine hlen
    simp only [localBranchRow]
    by_cases h0 : pyStrip rawLine = []
    · rw [if_pos h0]
    · rw [if_neg h0]
      rcases hs : splitWsTwo ((pyStrip rawLine).dropWhile (fun c => c = '*' ∨ c = ' ')) with
        _ | ⟨p0, _ | ⟨p1, rest⟩⟩
      · rfl
      · rfl
      · rw [hs] at hlen
        simp only [List.length_cons] at hlen
        omega

/-- C7 witness: the marker theorem applied to the current-branch example line,
and the skip rule applied to the line `*` (which strips to zero fields). -/
theorem branchParser_local_lines_w :
    ("[green]●[/green]".toList : Str) =
      (if ['*'].isPrefixOf (pyStrip ("* main abc1234 Initial commit".toList)) then
        "[green]●[/green]".toList else "[dim]○[/dim]".toList)
    ∧ localBranchRow ['*'] = none := by
  constructor
  · have h := branchParser_local_lines.2.1 ("* main abc1234 Initial commit".toList)
      ⟨"[green]●[/green]".toList, "main".toList, "abc1234 Initial commit".toList⟩
      branchParser_local_lines.2.2.2.2.1
    exact h
  · exact branchParser_local_lines.2.2.2.1 ['*'] (by decide)

/-! ### C8 — BranchParser remote lines -/

/-- The test `pyContains` decides genuine substring containment: `needle in hay` holds
exactly when `hay` decomposes as `a ++ needle ++ b`. -/
theorem pyContains_iff (needle hay : Str) :
    pyContains needle hay = true ↔ ∃ a b : Str, hay = a ++ (needle ++ b) := by
  induction hay with
  | nil =>
    cases needle with
    | nil => simp [pyContains]
    | cons x xs =>
      simp only [pyContains, List.isPrefixOf_cons_nil, Bool.false_eq_true, false_iff]
      rintro ⟨a, b, hab⟩
      cases a <;> simp at hab
  | cons c cs ih =>
    simp only [pyContains, Bool.or_eq_true, ih, List.isPrefixOf_iff_prefix]
    constructor
    · rintro (⟨t, ht⟩ | ⟨a, b, rfl⟩)
      · exact ⟨[], t, by simp [← ht]⟩
      · exact ⟨c :: a, b, by simp⟩
    · rintro ⟨a, b, hab⟩
      cases a with
      | nil =>
        left
        exact ⟨b, by simpa using hab.symm⟩
      | cons a0 a2 =>
        right
        rw [List.cons_append] at hab
        injection hab with h1 h2
        exact ⟨a2, b, h2⟩

/-- C8: a remote-branch line yields an entry exactly when it is nonempty after
stripping and does not contain the character sequence `->` anywhere; every
emitted entry carries the stripped line as its name; the symbolic-alias line
`origin/HEAD -> origin/main` is excluded and `origin/main` is included. -/
theorem branchParser_remote_lines :
    (∀ rawLine : Str, (remoteBranchRow rawLine).isSome = true ↔
        (pyStrip rawLine ≠ [] ∧ ¬ ∃ a b : Str, pyStrip rawLine = a ++ ("->".toList ++ b)))
    ∧ (∀ (rawLine : Str) (row : BranchRow), remoteBranchRow rawLine = some row →
        row = ⟨"[cyan]→[/cyan]".toList, pyStrip rawLine, []⟩)
    ∧ remoteBranchRow ("origin/HEAD -> origin/main".toList) = none
    ∧ remoteBranchRow ("origin/main".toList)
        = some ⟨"[cyan]→[/cyan]".toList, "origin/main".toList, []⟩ := by
  refine ⟨?_, ?_, by decide, by decide⟩
  · intro rawLine
    simp only [remoteBranchRow]
    split_ifs with h
    · simp only [Option.isSome_some, true_iff]
      refine ⟨h.1, fun hex => ?_⟩
      have hc := (pyContains_iff "->".toList (pyStrip rawLine)).mpr hex
      rw [h.2] at hc
      exact Bool.false_ne_true hc
    · simp only [Option.isSome_none, Bool.false_eq_true, false_iff]
      intro hcon
      apply h
      refine ⟨hcon.1, ?_⟩
      cases hpc : pyContains "->".toList (pyStrip rawLine) with
      | false => rfl
      | true => exact absurd ((pyContains_iff _ _).mp hpc) hcon.2
  · intro rawLine row h
    simp only [remoteBranchRow] at h
    split_ifs at h with hc
    injection h with h2
    exact h2.symm

/-- C8 witness: the emitted-entry theorem applied to the concrete line
`origin/main`. -/
theorem branchParser_remote_lines_w :
    (⟨"[cyan]→[/cyan]".toList, "origin/main".toList, []⟩ : BranchRow)
      = ⟨"[cyan]→[/cyan]".toList, pyStrip ("origin/main".toList), []⟩ :=
  branchParser_remote_lines.2.1 ("origin/main".toList) _ branchParser_remote_lines.2.2.2

/-! ### C1 — behaviour of a failed refresh -/

/-- When the repo-root lookup fails, `refresh_status` only rewrites the banner
and returns early. -/
theorem refresh_status_none (inp : StatusRefreshInputs) (s : GitStatusState)
    (h : inp.repoRoot = none) :
    refresh_status inp s = { s with repoInfo := notRepoBanner } := by
  simp only [refresh_status, h]

/-- When the repo root is present, the tables after `refresh_status` are a
function of the `status --porcelain` text alone (the success flag is
discarded by the source). -/
theorem refresh_status_some_tables (inp : StatusRefreshInputs) (s : GitStatusState)
    (r : Str) (h : inp.repoRoot = some r) :
    (refresh_status inp s).tables = statusTablesOfText inp.statusResult.output := by
  simp only [refresh_status, h]

/-- C1 counterexample: a refresh whose underlying invocation fails with a
nonzero exit does not leave the collections at their pre-refresh values.  A
failed `status --porcelain` clears the staged table (and can even parse the
stderr text as status lines), a failed `log` clears the commit rows, and a
failed `branch -v` / `branch -r` clears both branch tables. -/
theorem failed_refresh_keeps_collections_cex :
    (refresh_status
        ⟨some ("/repo".toList), ⟨true, "main".toList⟩,
          ⟨false, "fatal: not a git repository".toList⟩⟩
        ⟨[], ⟨[(greenWrap ("修改".toList), "a.py".toList)], [], []⟩⟩).tables.staged = []
    ∧ [(greenWrap ("修改".toList), "a.py".toList)] ≠ ([] : List (Str × Str))
    ∧ (refresh_status
        ⟨some ("/repo".toList), ⟨true, "main".toList⟩, ⟨false, "MM x".toList⟩⟩
        ⟨[], ⟨[], [], []⟩⟩).tables.staged = [(greenWrap ("修改".toList), ['x'])]
    ∧ (load_commits ⟨false, "err".toList⟩
        ⟨[⟨"h".toList, "a".toList, "d".toList, "m".toList⟩]⟩).rows = []
    ∧ (refresh_branches ⟨false, "err".toList⟩ ⟨false, "err".toList⟩
        ⟨[⟨"x".toList, "y".toList, "z".toList⟩],
         [⟨"x".toList, "y".toList, "z".toList⟩]⟩).localRows = [] := by
  decide

/-- C1 amended: only the repo-root-failure path of `refresh_status` leaves the
file collections untouched.  When the status invocation itself fails the
tables are cleared and rebuilt from whatever text the invocation returned
(the success flag is ignored, so nonempty stderr is parsed as status output);
a failed history load leaves the commit table empty, and a failed branch
listing leaves the branch tables empty. -/
theorem failed_refresh_keeps_collections_amended :
    (∀ (inp : StatusRefreshInputs) (s : GitStatusState), inp.repoRoot = none →
        (refresh_status inp s).tables = s.tables)
    ∧ (∀ (inp : StatusRefreshInputs) (s : GitStatusState), inp.repoRoot ≠ none →
        (refresh_status inp s).tables = statusTablesOfText inp.statusResult.output)
    ∧ (∀ (res : RunResult) (s : GitLogState), res.success = false →
        load_commits res s = ⟨[]⟩)
    ∧ (∀ (localRes remoteRes : RunResult) (s : GitBranchesState),
        localRes.success = false → remoteRes.success = false →
        refresh_branches localRes remoteRes s = ⟨[], []⟩) := by
  refine ⟨?_, ?_, ?_, ?_⟩
  · intro inp s h
    rw [refresh_status_none inp s h]
  · intro inp s h
    rcases hr : inp.repoRoot with _ | r
    · exact absurd hr h
    · exact refresh_status_some_tables inp s r hr
  · intro res s h
    simp [load_commits, h]
  · intro localRes remoteRes s h1 h2
    simp [refresh_branches, h1, h2]

/-- C1 amended witness: the amended theorem applied at concrete inputs for
each of the four cases. -/
theorem failed_refresh_keeps_collections_amended_w :
    (refresh_status ⟨none, ⟨true, []⟩, ⟨true, []⟩⟩ ⟨[], ⟨[], [], []⟩⟩).tables
      = (⟨[], [], []⟩ : StatusTables)
    ∧ (refresh_status ⟨some [], ⟨true, []⟩, ⟨true, []⟩⟩ ⟨[], ⟨[], [], []⟩⟩).tables
      = statusTablesOfText []
    ∧ load_commits ⟨false, []⟩ ⟨[]⟩ = (⟨[]⟩ : GitLogState)
    ∧ refresh_branches ⟨false, []⟩ ⟨false, []⟩ ⟨[], []⟩ = (⟨[], []⟩ : GitBranchesState) :=
  ⟨failed_refresh_keeps_collections_amended.1 _ _ rfl,
   failed_refresh_keeps_collections_amended.2.1 _ _ (by simp),
   failed_refresh_keeps_collections_amended.2.2.1 _ _ rfl,
   failed_refresh_keeps_collections_amended.2.2.2 _ _ _ rfl rfl⟩

/-! ### C2 — commit succeeds, push fails -/

/-- C2 counterexample: when commit succeeds and push fails, the summary is not
rebuilt from the fresh status output — it keeps its pre-operation text
(`OLD`), which differs from the zero-count summary the fresh (empty,
successful) status output would produce; only the partial-success warning is
emitted. -/
theorem commit_push_partial_cex :
    (on_commit_push ⟨true, []⟩ ⟨false, "rejected".toList⟩ ⟨true, []⟩
        ⟨"fix".toList, "OLD".toList, [], []⟩).summary = "OLD".toList
    ∧ "OLD".toList ≠ summaryText 0 0 0
    ∧ (on_commit_push ⟨true, []⟩ ⟨false, "rejected".toList⟩ ⟨true, []⟩
        ⟨"fix".toList, "OLD".toList, [], []⟩).notifications
      = [⟨"提交成功，但推送失败".toList, Severity.warning⟩] := by
  decide

/-- C2 amended: when the commit invocation succeeds and the push invocation
fails, the reported outcome is the distinct partial-success kind (the warning
`提交成功，但推送失败`, not a plain failure), but the staged/unstaged/untracked
summary is not rebuilt: `update_summary` runs only when push also succeeds, so
the pre-operation summary text and the input value are left in place and the
log records the successful commit followed by the failed push. -/
theorem commit_push_partial_amended :
    ∀ (commitRes pushRes statusRes : RunResult) (s : GitCommitState),
      pyStrip s.inputValue ≠ [] → commitRes.success = true → pushRes.success = false →
        (on_commit_push commitRes pushRes statusRes s).summary = s.summary
        ∧ (on_commit_push commitRes pushRes statusRes s).inputValue = s.inputValue
        ∧ (on_commit_push commitRes pushRes statusRes s).notifications
            = s.notifications ++ [⟨"提交成功，但推送失败".toList, Severity.warning⟩]
        ∧ (on_commit_push commitRes pushRes statusRes s).logLines
            = s.logLines ++ [commitOkLine (pyStrip s.inputValue), pushFailLine pushRes.output] := by
  intro commitRes pushRes statusRes s hm hc hp
  refine ⟨?_, ?_, ?_, ?_⟩ <;> simp [on_commit_push, hm, hc, hp]

/-- C2 amended witness: the amended theorem applied at a concrete state and
concrete results. -/
theorem commit_push_partial_amended_w :
    (on_commit_push ⟨true, []⟩ ⟨false, ['r']⟩ ⟨true, []⟩ ⟨['f'], ['o'], [], []⟩).summary = ['o']
    ∧ (on_commit_push ⟨true, []⟩ ⟨false, ['r']⟩ ⟨true, []⟩ ⟨['f'], ['o'], [], []⟩).notifications
      = [⟨"提交成功，但推送失败".toList, Severity.warning⟩] := by
  have h := commit_push_partial_amended ⟨true, []⟩ ⟨false, ['r']⟩ ⟨true, []⟩
    ⟨['f'], ['o'], [], []⟩ (by decide) rfl rfl
  exact ⟨h.1, by simpa using h.2.2.1⟩

/-! ### C3 — commit fails: push never attempted -/

/-- C3: when the commit invocation fails during commit-and-push, the only
effect is the commit-failure log entry — the summary, input value and
notifications are untouched — and the result does not depend on the push or
status results at all, i.e. the push invocation is never consulted. -/
theorem commit_fail_skips_push :
    ∀ (commitRes pushRes pushRes2 statusRes statusRes2 : RunResult) (s : GitCommitState),
      pyStrip s.inputValue ≠ [] → commitRes.success = false →
        on_commit_push commitRes pushRes statusRes s
          = { s with logLines := s.logLines ++ [commitFailLine commitRes.output] }
        ∧ on_commit_push commitRes pushRes statusRes s
          = on_commit_push commitRes pushRes2 statusRes2 s := by
  intro commitRes pushRes pushRes2 statusRes statusRes2 s hm hc
  constructor <;> simp [on_commit_push, hm, hc]

/-- C3 witness: the theorem applied at a concrete failing commit. -/
theorem commit_fail_skips_push_w :
    on_commit_push ⟨false, ['e']⟩ ⟨true, []⟩ ⟨true, []⟩ ⟨['f'], [], [], []⟩
      = ⟨['f'], [], [commitFailLine ['e']], []⟩ := by
  have h := commit_fail_skips_push ⟨false, ['e']⟩ ⟨true, []⟩ ⟨true, []⟩ ⟨true, []⟩ ⟨true, []⟩
    ⟨['f'], [], [], []⟩ (by decide) rfl
  rw [h.1]
  rfl

/-! ### C9 — read-only refreshes are idempotent and output-determined -/

/-- C9: with the same tool results, performing a read-only refresh (status,
history, branches) a second time changes nothing — the snapshot after the
second refresh is bit-identical to the one after the first — and the refreshed
collections are a function of the tool outputs alone (for status, whenever the
repo root resolved). -/
theorem readonly_refresh_idempotent :
    (∀ (inp : StatusRefreshInputs) (s : GitStatusState),
        refresh_status inp (refresh_status inp s) = refresh_status inp s)
    ∧ (∀ (res : RunResult) (s : GitLogState),
        load_commits res (load_commits res s) = load_commits res s)
    ∧ (∀ (lr rr : RunResult) (s : GitBranchesState),
        refresh_branches lr rr (refresh_branches lr rr s) = refresh_branches lr rr s)
    ∧ (∀ (inp : StatusRefreshInputs) (s t : GitStatusState), inp.repoRoot ≠ none →
        (refresh_status inp s).tables = (refresh_status inp t).tables)
    ∧ (∀ (res : RunResult) (s t : GitLogState), load_commits res s = load_commits res t)
    ∧ (∀ (lr rr : RunResult) (s t : GitBranchesState),
        refresh_branches lr rr s = refresh_branches lr rr t) := by
  refine ⟨?_, fun res s => rfl, fun lr rr s => rfl, ?_, fun res s t => rfl,
    fun lr rr s t => rfl⟩
  · intro inp s
    rcases h : inp.repoRoot with _ | r
    · simp only [refresh_status, h]
    · simp only [refresh_status, h]
      split_ifs <;> rfl
  · intro inp s t h
    rcases hr : inp.repoRoot with _ | r
    · exact absurd hr h
    · rw [refresh_status_some_tables inp s r hr, refresh_status_some_tables inp t r hr]

/-- C9 witness: the determinism clause applied at a concrete input and two
distinct concrete prior states. -/
theorem readonly_refresh_idempotent_w :
    (refresh_status ⟨some [], ⟨true, []⟩, ⟨true, "MM x".toList⟩⟩ ⟨[], ⟨[], [], []⟩⟩).tables
      = (refresh_status ⟨some [], ⟨true, []⟩, ⟨true, "MM x".toList⟩⟩
          ⟨['b'], ⟨[], [(['y'], ['z'])], []⟩⟩).tables :=
  readonly_refresh_idempotent.2.2.2.1 ⟨some [], ⟨true, []⟩, ⟨true, "MM x".toList⟩⟩
    ⟨[], ⟨[], [], []⟩⟩ ⟨['b'], ⟨[], [(['y'], ['z'])], []⟩⟩ (by simp)

/-! ### C10 — commit-panel counters agree with StatusParser -/

/-- On lines of length at least 2, the `startswith("??")` test of
`update_summary` coincides with the two-character test of `refresh_status`. -/
theorem summaryUntrackedPred_cons (c0 c1 : Char) (x : Str) :
    summaryUntrackedPred (c0 :: c1 :: x) = true ↔ (c0 = '?' ∧ c1 = '?') := by
  simp only [summaryUntrackedPred, List.isPrefixOf, List.isPrefixOf_nil_left, Bool.and_true,
    Bool.and_eq_true, beq_iff_eq]
  constructor
  · rintro ⟨h1, h2⟩
    exact ⟨h1.symm, h2.symm⟩
  · rintro ⟨h1, h2⟩
    exact ⟨h1.symm, h2.symm⟩

/-- One status line of length at least 3 grows each table by exactly the
count that `update_summary`'s corresponding predicate assigns to the line. -/
theorem statusLineStep_counts (t : StatusTables) (l : Str) (h : 3 ≤ l.length) :
    (statusLineStep t l).staged.length
        = t.staged.length + (if summaryStagedPred l then 1 else 0)
    ∧ (statusLineStep t l).unstaged.length
        = t.unstaged.length + (if summaryUnstagedPred l then 1 else 0)
    ∧ (statusLineStep t l).untracked.length
        = t.untracked.length + (if summaryUntrackedPred l then 1 else 0) := by
  rcases l with _ | ⟨c0, _ | ⟨c1, _ | ⟨c2, rest⟩⟩⟩
  · simp at h
  · simp at h
  · simp at h
  · rw [statusLineStep_cons]
    refine ⟨?_, ?_, ?_⟩
    · rw [show summaryStagedPred (c0 :: c1 :: c2 :: rest) = "MADRC".toList.contains c0 from rfl]
      split_ifs <;> simp
    · rw [show summaryUnstagedPred (c0 :: c1 :: c2 :: rest) = "MD".toList.contains c1 from rfl]
      split_ifs <;> simp
    · by_cases hq : c0 = '?' ∧ c1 = '?'
      · rw [if_pos hq, if_pos ((summaryUntrackedPred_cons c0 c1 (c2 :: rest)).mpr hq)]
        simp
      · rw [if_neg hq,
          if_neg (fun hp => hq ((summaryUntrackedPred_cons c0 c1 (c2 :: rest)).mp hp))]
        simp

/-- Folding the status-line loop over well-formed lines grows each table by
exactly the number of lines satisfying the corresponding summary predicate. -/
theorem foldl_statusLineStep_counts (lines : List Str) (t : StatusTables)
    (h : ∀ l ∈ lines, 3 ≤ l.length) :
    ((lines.foldl statusLineStep t).staged).length
        = t.staged.length + (lines.filter summaryStagedPred).length
    ∧ ((lines.foldl statusLineStep t).unstaged).length
        = t.unstaged.length + (lines.filter summaryUnstagedPred).length
    ∧ ((lines.foldl statusLineStep t).untracked).length
        = t.untracked.length + (lines.filter summaryUntrackedPred).length := by
  induction lines generalizing t with
  | nil => simp
  | cons l ls ih =>
    have hl : 3 ≤ l.length := h l (List.mem_cons_self l ls)
    have hls : ∀ x ∈ ls, 3 ≤ x.length := fun x hx => h x (List.mem_cons_of_mem l hx)
    obtain ⟨e1, e2, e3⟩ := statusLineStep_counts t l hl
    obtain ⟨f1, f2, f3⟩ := ih (statusLineStep t l) hls
    refine ⟨?_, ?_, ?_⟩
    · simp only [List.foldl_cons, List.filter_cons]
      rw [f1, e1]
      split_ifs <;> (simp; try omega)
    · simp only [List.foldl_cons, List.filter_cons]
      rw [f2, e2]
      split_ifs <;> (simp; try omega)
    · simp only [List.foldl_cons, List.filter_cons]
      rw [f3, e3]
      split_ifs <;> (simp; try omega)

/-- C10: on status lines of at least 3 characters the commit panel's counting
predicates classify exactly as the status-table parser does, so on porcelain
output whose lines all have length at least 3 the staged/unstaged/untracked
counts displayed by `update_summary` equal the sizes of the three parsed
collections. -/
theorem commit_summary_counts_match :
    (∀ (t : StatusTables) (l : Str), 3 ≤ l.length →
        (statusLineStep t l).staged.length
            = t.staged.length + (if summaryStagedPred l then 1 else 0)
        ∧ (statusLineStep t l).unstaged.length
            = t.unstaged.length + (if summaryUnstagedPred l then 1 else 0)
        ∧ (statusLineStep t l).untracked.length
            = t.untracked.length + (if summaryUntrackedPred l then 1 else 0))
    ∧ (∀ status : Str, (∀ l ∈ splitChar '\n' status, 3 ≤ l.length) →
        ((splitChar '\n' status).filter summaryStagedPred).length
            = (statusTablesOfText status).staged.length
        ∧ ((splitChar '\n' status).filter summaryUnstagedPred).length
            = (statusTablesOfText status).unstaged.length
        ∧ ((splitChar '\n' status).filter summaryUntrackedPred).length
            = (statusTablesOfText status).untracked.length
        ∧ (∀ s : GitCommitState,
            (update_summary ⟨true, status⟩ s).summary
              = summaryText (statusTablesOfText status).staged.length
                  (statusTablesOfText status).unstaged.length
                  (statusTablesOfText status).untracked.length)) := by
  refine ⟨statusLineStep_counts, ?_⟩
  intro status h
  have hne : status ≠ [] := by
    rintro rfl
    have h0 := h [] (by simp [splitChar])
    simp at h0
  have hT : statusTablesOfText status
      = (splitChar '\n' status).foldl statusLineStep ⟨[], [], []⟩ := by
    simp [statusTablesOfText, hne]
  obtain ⟨e1, e2, e3⟩ := foldl_statusLineStep_counts (splitChar '\n' status) ⟨[], [], []⟩ h
  refine ⟨?_, ?_, ?_, ?_⟩
  · rw [hT, e1]
    simp
  · rw [hT, e2]
    simp
  · rw [hT, e3]
    simp
  · intro s
    have hu : (update_summary ⟨true, status⟩ s).summary
        = summaryText (((splitChar '\n' status).filter summaryStagedPred).length)
            (((splitChar '\n' status).filter summaryUnstagedPred).length)
            (((splitChar '\n' status).filter summaryUntrackedPred).length) := by
      simp [update_summary, hne]
    rw [hu, hT, e1, e2, e3]
    simp

/-- C10 witness: the count-agreement theorem applied to the concrete porcelain
text `MM a`. -/
theorem commit_summary_counts_match_w :
    ((splitChar '\n' ("MM a".toList)).filter summaryStagedPred).length
      = (statusTablesOfText ("MM a".toList)).staged.length :=
  (commit_summary_counts_match.2 ("MM a".toList) (by decide)).1
